import Mathlib

/-!
Verification development for the E2E-monitor-module repository.

The repository implements a reconciliation / polling-orchestration engine:
an orchestrator (an AWS Step Functions state machine built by
`cdk/lib/state-machine-stack.ts`) creates a Task record via the
`init-record` lambda, sends a probe, and polls DynamoDB; the
`email-ingest` lambda classifies incoming mails, resolves transaction
receipts, and reconciles Event / Balance notifications onto the Task
records (`upsertEventRecord`, `attachBalanceByTimeWindow`); the
`prepare-message` lambda derives the on-chain correlation hash.

This file shallowly embeds the relevant source functions:
* the DynamoDB results table is a `List Task`; a conditional
  `UpdateCommand` is `condUpdate` (conflict = `ConditionalCheckFailedException`);
  the `GSI_TimeOrder` index (sort key `createdAtMs`, newest first,
  `Limit` before `FilterExpression`, per DynamoDB semantics) is
  `sortByCreatedDesc`/`List.take`/`List.filter`;
* derived string renderings of timestamps (UTC/JST strings, the
  minute-resolution `eventBucket`) are pure formatting of the `...Ms`
  epoch values stored alongside them, and are represented here by those
  `Ms` fields; the constant `recordType = E2E_TASK` attribute carried by
  every record is implicit;
* SHA-256 (Node's `createHash('sha256')...digest('hex')`) is implemented
  in full; JS `||` defaulting on strings/numbers is `jsOrStr`/`jsOrNat`;
* the email classifier's regular expressions are implemented as direct
  scanners over `List Char` with JS leftmost-match semantics; the JS `\s`
  class is modelled by its common members (ASCII whitespace, NBSP and the
  ideographic space), and Node's lossy base64/UTF-8 decoding of RFC 2047
  encoded words is implemented with U+FFFD replacement for malformed
  sequences;
* records are never deleted by this engine (only DynamoDB TTL expiry,
  years out), so a queried candidate row always still exists in the
  table; the item-autocreate corner of `UpdateItem` on a missing key is
  therefore unreachable and `condUpdate` treats "no matching row" as a
  conflict.
-/

set_option maxRecDepth 8000

namespace E2EMM

/-! ### JS-style defaulting helpers -/

/-- JS falsy-or on an optional string (the empty string is falsy), as in
`const correlationIdHex = event.correlationIdHex || hash` in init-record. -/
def jsOrStr (a : Option String) (b : String) : String :=
  match a with
  | some v => if v.isEmpty then b else v
  | none => b

/-- JS falsy-or on a number (0 is falsy), as in `event.attempt || 1`. -/
def jsOrNat (a d : Nat) : Nat := if a = 0 then d else a

/-! ### SHA-256 (Node `crypto.createHash('sha256').update(s).digest('hex')`)

Machine words are `Nat` reduced mod 2 ^ 32 by `w32`. -/

def w32 (n : Nat) : Nat := n % 4294967296

def rotr32 (k x : Nat) : Nat := w32 ((x >>> k) ||| (x <<< (32 - k)))

def chFn (x y z : Nat) : Nat := (x &&& y) ^^^ ((x ^^^ 4294967295) &&& z)

def majFn (x y z : Nat) : Nat := (x &&& y) ^^^ (x &&& z) ^^^ (y &&& z)

def bigSigma0 (x : Nat) : Nat := rotr32 2 x ^^^ rotr32 13 x ^^^ rotr32 22 x

def bigSigma1 (x : Nat) : Nat := rotr32 6 x ^^^ rotr32 11 x ^^^ rotr32 25 x

def smallSigma0 (x : Nat) : Nat := rotr32 7 x ^^^ rotr32 18 x ^^^ (x >>> 3)

def smallSigma1 (x : Nat) : Nat := rotr32 17 x ^^^ rotr32 19 x ^^^ (x >>> 10)

/-- The eight working variables of the SHA-256 compression function. -/
structure Hash8 where
  a : Nat
  b : Nat
  c : Nat
  d : Nat
  e : Nat
  f : Nat
  g : Nat
  h : Nat
deriving DecidableEq

def sha256Init : Hash8 :=
  ⟨1779033703, 3144134277, 1013904242, 2773480762,
   1359893119, 2600822924, 528734635, 1541459225⟩

def sha256K : List Nat :=
  [1116352408, 1899447441, 3049323471, 3921009573,
   961987163, 1508970993, 2453635748, 2870763221,
   3624381080, 310598401, 607225278, 1426881987,
   1925078388, 2162078206, 2614888103, 3248222580,
   3835390401, 4022224774, 264347078, 604807628,
   770255983, 1249150122, 1555081692, 1996064986,
   2554220882, 2821834349, 2952996808, 3210313671,
   3336571891, 3584528711, 113926993, 338241895,
   666307205, 773529912, 1294757372, 1396182291,
   1695183700, 1986661051, 2177026350, 2456956037,
   2730485921, 2820302411, 3259730800, 3345764771,
   3516065817, 3600352804, 4094571909, 275423344,
   430227734, 506948616, 659060556, 883997877,
   958139571, 1322822218, 1537002063, 1747873779,
   1955562222, 2024104815, 2227730452, 2361852424,
   2428436474, 2756734187, 3204031479, 3329325298]

/-- UTF-8 encoding of one scalar value (what `hash.update(string)` hashes). -/
def utf8EncodeChar (c : Char) : List Nat :=
  let n := c.toNat
  if n < 128 then [n]
  else if n < 2048 then [192 + n / 64, 128 + n % 64]
  else if n < 65536 then [224 + n / 4096, 128 + n / 64 % 64, 128 + n % 64]
  else [240 + n / 262144, 128 + n / 4096 % 64, 128 + n / 64 % 64, 128 + n % 64]

def utf8Bytes (s : String) : List Nat := s.data.flatMap utf8EncodeChar

/-- Group a byte list into big-endian 32-bit words. -/
def bytesToWordsBE : List Nat → List Nat
  | b0 :: b1 :: b2 :: b3 :: rest =>
      (b0 * 16777216 + b1 * 65536 + b2 * 256 + b3) :: bytesToWordsBE rest
  | _ => []

/-- Extend the 16 block words to the 64-entry message schedule
(`n` is the number of words still to append, 48 at the top call). -/
def extendSchedule : Nat → List Nat → List Nat
  | 0, ws => ws
  | n + 1, ws =>
      let i := ws.length
      let wi := w32 (smallSigma1 (ws.getD (i - 2) 0) + ws.getD (i - 7) 0 +
        smallSigma0 (ws.getD (i - 15) 0) + ws.getD (i - 16) 0)
      extendSchedule n (ws ++ [wi])

def compressStep (k w : Nat) (st : Hash8) : Hash8 :=
  let t1 := w32 (st.h + bigSigma1 st.e + chFn st.e st.f st.g + k + w)
  let t2 := w32 (bigSigma0 st.a + majFn st.a st.b st.c)
  ⟨w32 (t1 + t2), st.a, st.b, st.c, w32 (st.d + t1), st.e, st.f, st.g⟩

def compressRounds : List Nat → List Nat → Hash8 → Hash8
  | k :: ks, w :: ws, st => compressRounds ks ws (compressStep k w st)
  | _, _, st => st

def addHash8 (x y : Hash8) : Hash8 :=
  ⟨w32 (x.a + y.a), w32 (x.b + y.b), w32 (x.c + y.c), w32 (x.d + y.d),
   w32 (x.e + y.e), w32 (x.f + y.f), w32 (x.g + y.g), w32 (x.h + y.h)⟩

def processBlock (st : Hash8) (block : List Nat) : Hash8 :=
  addHash8 st (compressRounds sha256K (extendSchedule 48 (bytesToWordsBE block)) st)

/-- Big-endian byte rendering of `n` in `k` bytes. -/
def lenBytesBE : Nat → Nat → List Nat
  | 0, _ => []
  | k + 1, n => lenBytesBE k (n / 256) ++ [n % 256]

/-- SHA-256 padding: 0x80, zeros to 56 mod 64, then the 64-bit bit length. -/
def sha256Pad (msg : List Nat) : List Nat :=
  let z := (120 - (msg.length + 1) % 64) % 64
  msg ++ 128 :: List.replicate z 0 ++ lenBytesBE 8 (msg.length * 8)

/-- Fuel-driven 64-byte chunking (fuel is plentiful at every call site, so
this equals unbounded chunking; fuel keeps the recursion structural and
kernel-reducible). -/
def chunks64Aux : Nat → List Nat → List (List Nat)
  | 0, _ => []
  | _, [] => []
  | fuel + 1, bs => bs.take 64 :: chunks64Aux fuel (bs.drop 64)

def wordBytesBE (w : Nat) : List Nat :=
  [w / 16777216 % 256, w / 65536 % 256, w / 256 % 256, w % 256]

def hash8Bytes (st : Hash8) : List Nat :=
  wordBytesBE st.a ++ wordBytesBE st.b ++ wordBytesBE st.c ++ wordBytesBE st.d ++
  wordBytesBE st.e ++ wordBytesBE st.f ++ wordBytesBE st.g ++ wordBytesBE st.h

def sha256Bytes (msg : List Nat) : List Nat :=
  let padded := sha256Pad msg
  hash8Bytes ((chunks64Aux padded.length padded).foldl processBlock sha256Init)

/-- Lowercase hex digit, as produced by Node's `digest('hex')`. -/
def hexDigitChar (n : Nat) : Char :=
  if n < 10 then Char.ofNat (48 + n) else Char.ofNat (87 + n)

def byteHexChars (b : Nat) : List Char := [hexDigitChar (b / 16 % 16), hexDigitChar (b % 16)]

def sha256HexChars (s : String) : List Char := (sha256Bytes (utf8Bytes s)).flatMap byteHexChars

/-- `createHash('sha256').update(s).digest('hex')`: lowercase hex digest. -/
def sha256HexLower (s : String) : String := String.mk (sha256HexChars s)

/-! ### The idHash computed by the two components (claim C10) -/

/-- prepare-message `toBytes32HexFromString`: always SHA-256 the string and
prefix `0x` (src/lambda/prepare-message/index.js lines 12-19). -/
def toBytes32HexFromString (input : String) : String :=
  "0x" ++ sha256HexLower input

/-- init-record's `correlationIdHex` value: the supplied value if truthy,
otherwise the same `0x`-prefixed SHA-256 hex fallback
(init-record handler lines 49-51). -/
def initCorrelationIdHex (eventHex : Option String) (correlationId : String) : String :=
  jsOrStr eventHex ("0x" ++ sha256HexLower correlationId)

/-- Modelled from the spec: `idHash` is one fixed pure function of `id`,
namely `0x` followed by the lowercase hex SHA-256 digest of the id. -/
def specIdHash (idStr : String) : String := "0x" ++ sha256HexLower idStr

/-! ### The Task record and the results table

One record of the DynamoDB table `e2emm-results-<stage>`.  String
timestamp renderings (UTC/JST, `eventBucket`) are derived formatting of
the `...Ms` fields and are represented by those; `recordType` is the
constant `E2E_TASK` on every record and is implicit. -/

structure Task where
  correlationId : String
  correlationIdHex : String
  createdAtMs : Nat
  attempt : Nat
  totalAttempts : Nat
  status : String
  correlationResolved : Bool
  balanceReceived : Bool
  txHash : Option String
  eventEmailAtMs : Option Nat
  balanceEmailAtMs : Option Nat
  updatedAtMs : Nat
  ttl : Nat
deriving DecidableEq

abbrev Store := List Task

/-- Point lookup by primary key (`GetCommand` / `getItem`). -/
def getTask (s : Store) (cid : String) : Option Task :=
  s.find? (fun t => t.correlationId == cid)

/-- Conditional single-item write (`UpdateCommand` with a
`ConditionExpression` on the keyed item): the `Bool` is `true` when the
update applied and `false` on `ConditionalCheckFailedException`.  Since
this engine never deletes records, a failing condition (or a missing key,
unreachable here) reads as a conflict and leaves the table unchanged. -/
def condUpdate (cid : String) (cond : Task → Bool) (f : Task → Task) (s : Store) :
    Store × Bool :=
  if s.any (fun t => t.correlationId == cid && cond t) then
    (s.map (fun t => if t.correlationId == cid && cond t then f t else t), true)
  else (s, false)

/-- Descending insertion by `createdAtMs` (newest first). -/
def insertByCreated (t : Task) : List Task → List Task
  | [] => [t]
  | u :: us => if u.createdAtMs ≤ t.createdAtMs then t :: u :: us
      else u :: insertByCreated t us

/-- The `GSI_TimeOrder` read order: sorted by the `createdAtMs` sort key,
`ScanIndexForward: false` (newest first). -/
def sortByCreatedDesc : List Task → List Task
  | [] => []
  | t :: ts => insertByCreated t (sortByCreatedDesc ts)

/-- Seconds in the five-year DynamoDB TTL horizon (`5 * 365 * 24 * 60 * 60`). -/
def ttlSeconds5Years : Nat := 157680000

/-- Derived status as the spec states it: the pure function of the two
completion flags (spec section 3, `status` mapping). -/
def statusOf : Bool → Bool → String
  | false, false => "PENDING"
  | true, false => "EVENT_ONLY"
  | false, true => "BALANCE_ONLY"
  | true, true => "SUCCESS"

/-! ### init-record (Orchestrator Task creation, idempotent) -/

inductive InitResult
  | created
  | updated
deriving DecidableEq

/-- The retry branch's `UpdateExpression`: only `attempt`,
`totalAttempts`, `updatedAt*` and `ttl` are set (the ttl recomputed from
the existing record's `createdAtMs`, falling back to now when falsy). -/
def bookkeepSet (existing : Task) (attempt totalAttempts nowMs : Nat) (t : Task) : Task :=
  { t with
    attempt := attempt
    totalAttempts := totalAttempts
    updatedAtMs := nowMs
    ttl := (if existing.createdAtMs = 0 then nowMs else existing.createdAtMs) / 1000 +
      ttlSeconds5Years }

/-- The fresh `PENDING` item written by the create branch. -/
def initialTask (correlationId correlationIdHex : String) (attempt totalAttempts nowMs : Nat) :
    Task :=
  { correlationId := correlationId
    correlationIdHex := correlationIdHex
    createdAtMs := nowMs
    attempt := attempt
    totalAttempts := totalAttempts
    status := "PENDING"
    correlationResolved := false
    balanceReceived := false
    txHash := none
    eventEmailAtMs := none
    balanceEmailAtMs := none
    updatedAtMs := nowMs
    ttl := nowMs / 1000 + ttlSeconds5Years }

/-- The init-record lambda handler: `PutCommand` guarded by
`attribute_not_exists(correlationId)`; on `ConditionalCheckFailedException`
it re-reads the record and applies only the bookkeeping update. -/
def initRecord (correlationId : String) (eventHex : Option String)
    (attemptIn totalAttemptsIn nowMs : Nat) (s : Store) : Store × InitResult :=
  let attempt := jsOrNat attemptIn 1
  let totalAttempts := jsOrNat totalAttemptsIn 3
  let correlationIdHex := initCorrelationIdHex eventHex correlationId
  match s.find? (fun t => t.correlationId == correlationId) with
  | none =>
      (s ++ [initialTask correlationId correlationIdHex attempt totalAttempts nowMs], .created)
  | some existing =>
      (s.map (fun t => if t.correlationId == correlationId then
          bookkeepSet existing attempt totalAttempts nowMs t
        else t), .updated)

/-! ### upsertEventRecord (Reconciler event path, email-ingest lines 245-373) -/

inductive EventOutcome
  | recordNotFound
  | duplicate
  | updated
  | raceLost
deriving DecidableEq

/-- The `GSI_TimeOrder` query of `upsertEventRecord`: key condition
`recordType = E2E_TASK` newest first, `Limit: 10` (applied before the
filter, per DynamoDB), then `FilterExpression:
correlationIdHex = :correlationIdHex AND correlationResolved = :false`. -/
def eventQuery (correlationIdHex : String) (s : Store) : List Task :=
  ((sortByCreatedDesc s).take 10).filter
    (fun t => t.correlationIdHex == correlationIdHex && t.correlationResolved == false)

/-- The event path's `UpdateExpression`: `newStatus` and the ttl are
computed from the query-snapshot row `existing` (SUCCESS when the
balance already arrived, the order-reversal case, else EVENT_ONLY). -/
def eventSet (correlationIdHex txHash : String) (eventEmailAtMs nowMs : Nat)
    (existing : Task) (t : Task) : Task :=
  { t with
    txHash := some txHash
    correlationIdHex := correlationIdHex
    correlationResolved := true
    eventEmailAtMs := some eventEmailAtMs
    status := if existing.balanceReceived then "SUCCESS" else "EVENT_ONLY"
    updatedAtMs := nowMs
    ttl := (if existing.createdAtMs = 0 then nowMs else existing.createdAtMs) / 1000 +
      ttlSeconds5Years }

/-- The write half of `upsertEventRecord`, taking the query snapshot
`items` separately from the table `s` the conditional update runs
against, so that interleavings with other operations are expressible
(the sequential call instantiates `items` with `eventQuery` of `s`).
The `ConditionExpression` guards only `correlationResolved`. -/
def upsertEventCommit (correlationIdHex txHash : String) (eventEmailAtMs nowMs : Nat)
    (items : List Task) (s : Store) : Store × EventOutcome :=
  match items with
  | [] => (s, .recordNotFound)
  | existing :: _ =>
    if existing.correlationResolved then (s, .duplicate)
    else
      let upd := condUpdate existing.correlationId (fun t => t.correlationResolved == false)
        (eventSet correlationIdHex txHash eventEmailAtMs nowMs existing) s
      if upd.2 then (upd.1, .updated) else (upd.1, .raceLost)

/-- `upsertEventRecord(correlationIdHex, txHash, eventEmailAtMs)` run
atomically against table `s` (`nowMs` is the `Date.now()` used for the
`updatedAt*` fields). -/
def upsertEventRecord (correlationIdHex txHash : String) (eventEmailAtMs nowMs : Nat)
    (s : Store) : Store × EventOutcome :=
  upsertEventCommit correlationIdHex txHash eventEmailAtMs nowMs
    (eventQuery correlationIdHex s) s

/-! ### attachBalanceByTimeWindow (Reconciler balance path, lines 376-518) -/

inductive BalanceOutcome
  | attached (correlationId : String)
  | noCandidate
  | duplicate
deriving DecidableEq

/-- `WINDOW_MINUTES = 10`. -/
def windowMinutes : Nat := 10

/-- First-priority candidates: event received, balance not yet
(`correlationResolved === true && balanceReceived !== true`). -/
def tier1Of (items : List Task) : List Task :=
  items.filter (fun t => t.correlationResolved && !t.balanceReceived)

/-- Second-priority candidates: neither notification received
(`correlationResolved !== true && balanceReceived !== true`). -/
def tier2Of (items : List Task) : List Task :=
  items.filter (fun t => !t.correlationResolved && !t.balanceReceived)

/-- `[...eventOnlyCandidates, ...pendingCandidates]`: tier 1 before tier 2. -/
def balanceCandidatesOf (items : List Task) : List Task := tier1Of items ++ tier2Of items

/-- The balance path's `UpdateExpression`: `newStatus` and the ttl come
from the snapshot row `cand` (SUCCESS when its event already arrived,
else BALANCE_ONLY). -/
def balanceSet (nowMs : Nat) (cand : Task) (t : Task) : Task :=
  { t with
    balanceReceived := true
    balanceEmailAtMs := some nowMs
    status := if cand.correlationResolved then "SUCCESS" else "BALANCE_ONLY"
    updatedAtMs := nowMs
    ttl := (if cand.createdAtMs = 0 then nowMs else cand.createdAtMs) / 1000 +
      ttlSeconds5Years }

/-- The candidate walk: try each candidate's conditional update in order
(condition: `balanceReceived` still false), stop at the first applied
write; a conflict (`ConditionalCheckFailedException`) moves on to the
next candidate with the table unchanged; an exhausted list is the
duplicate-balance soft miss. -/
def balanceLoop (nowMs : Nat) : List Task → Store → Store × BalanceOutcome
  | [], s => (s, .duplicate)
  | cand :: rest, s =>
    let upd := condUpdate cand.correlationId (fun t => t.balanceReceived == false)
      (balanceSet nowMs cand) s
    if upd.2 then (upd.1, .attached cand.correlationId) else balanceLoop nowMs rest s

/-- The `GSI_TimeOrder` window query of `attachBalanceByTimeWindow`: key
condition `createdAtMs BETWEEN now - 10min AND now`, newest first,
`Limit: 20`. -/
def balanceQuery (nowMs : Nat) (s : Store) : List Task :=
  let earliestMs := nowMs - windowMinutes * 60 * 1000
  (sortByCreatedDesc (s.filter
    (fun t => decide (earliestMs ≤ t.createdAtMs) && decide (t.createdAtMs ≤ nowMs)))).take 20

/-- The write half of `attachBalanceByTimeWindow` on a query snapshot
`items`: partition into the two priority tiers, concatenate, emit the
no-candidate soft miss on an empty list, otherwise walk the candidates. -/
def attachBalanceCommit (nowMs : Nat) (items : List Task) (s : Store) :
    Store × BalanceOutcome :=
  let candidates := balanceCandidatesOf items
  if candidates.isEmpty then (s, .noCandidate)
  else balanceLoop nowMs candidates s

/-- `attachBalanceByTimeWindow()` run atomically against table `s`
(`nowMs` is the single `Date.now()` used for the window, `balanceEmailAt*`
and `updatedAt*`). -/
def attachBalanceByTimeWindow (nowMs : Nat) (s : Store) : Store × BalanceOutcome :=
  attachBalanceCommit nowMs (balanceQuery nowMs s) s

/-! ### Operation sequences

`SOp` runs each operation atomically (its query and its conditional
write see the same table state).  `Action` is the finer-grained model:
a reconciler write phase carries an arbitrary earlier query snapshot, so
any interleaving of the operations' atomic store accesses (each query
and each conditional write is one atomic DynamoDB call) is a special
case of an `Action` sequence. -/

inductive SOp
  | init (correlationId : String) (eventHex : Option String)
      (attemptIn totalAttemptsIn nowMs : Nat)
  | applyEvent (correlationIdHex txHash : String) (eventEmailAtMs nowMs : Nat)
  | applyBalance (nowMs : Nat)

def stepS (s : Store) : SOp → Store
  | .init cid hx a tot now => (initRecord cid hx a tot now s).1
  | .applyEvent hex tx ev now => (upsertEventRecord hex tx ev now s).1
  | .applyBalance now => (attachBalanceByTimeWindow now s).1

def runS (s : Store) : List SOp → Store
  | [] => s
  | op :: ops => runS (stepS s op) ops

inductive Action
  | init (correlationId : String) (eventHex : Option String)
      (attemptIn totalAttemptsIn nowMs : Nat)
  | applyEvent (snapshot : List Task) (correlationIdHex txHash : String)
      (eventEmailAtMs nowMs : Nat)
  | applyBalance (snapshot : List Task) (nowMs : Nat)

def stepA (s : Store) : Action → Store
  | .init cid hx a tot now => (initRecord cid hx a tot now s).1
  | .applyEvent snap hex tx ev now => (upsertEventCommit hex tx ev now snap s).1
  | .applyBalance snap now => (attachBalanceCommit now snap s).1

def runA (s : Store) : List Action → Store
  | [] => s
  | a :: acts => runA (stepA s a) acts

/-! ### Notification classifier (email-ingest lines 89-131 and 520-575)

The JS regular expressions are realised as direct scanners on
`List Char` with JS `text.match` semantics (leftmost match; a lazy
quantifier takes the shortest extension; `\s*` before a non-whitespace
literal is maximal munch).  The JS `\s` class is modelled by its common
members; `.` excludes the JS line terminators. -/

/-- JS `\s` (space, tab, LF, CR, VT, FF, NBSP, ideographic space;
the rarer Unicode space code points are omitted). -/
def wsChar (c : Char) : Bool :=
  c == ' ' || c == '\t' || c == '\n' || c == '\r' || c == Char.ofNat 11 ||
  c == Char.ofNat 12 || c == Char.ofNat 160 || c == Char.ofNat 12288

/-- JS line terminators excluded by `.` (LF, CR, LS, PS). -/
def lineTermCh (c : Char) : Bool :=
  c == '\n' || c == '\r' || c == Char.ofNat 8232 || c == Char.ofNat 8233

/-- One of `[a-fA-F0-9]`. -/
def isHexDigitCh (c : Char) : Bool :=
  decide ('0' ≤ c ∧ c ≤ '9') || decide ('a' ≤ c ∧ c ≤ 'f') || decide ('A' ≤ c ∧ c ≤ 'F')

def hexDigitVal (c : Char) : Nat :=
  if decide ('0' ≤ c ∧ c ≤ '9') then c.toNat - 48
  else if decide ('a' ≤ c ∧ c ≤ 'f') then c.toNat - 87
  else if decide ('A' ≤ c ∧ c ≤ 'F') then c.toNat - 55
  else 0

/-- Case-sensitive literal consumption; returns the rest on success. -/
def dropLit : List Char → List Char → Option (List Char)
  | [], cs => some cs
  | _ :: _, [] => none
  | n :: ns, c :: cs => if n == c then dropLit ns cs else none

/-- Case-insensitive (ASCII) literal consumption. -/
def dropLitCI : List Char → List Char → Option (List Char)
  | [], cs => some cs
  | _ :: _, [] => none
  | n :: ns, c :: cs => if n.toLower == c.toLower then dropLitCI ns cs else none

def prefixEq (needle hay : List Char) : Bool := (dropLit needle hay).isSome

/-- All suffixes of a list, longest first (the candidate match positions
of a JS regex scan, leftmost first). -/
def suffixesL : List Char → List (List Char)
  | [] => [[]]
  | c :: cs => (c :: cs) :: suffixesL cs

/-- JS `String.prototype.includes`. -/
def strHas (needle hay : List Char) : Bool := (suffixesL hay).any (prefixEq needle)

/-- Consume exactly `n` hex digits; returns (digits, rest). -/
def takeHexN : Nat → List Char → Option (List Char × List Char)
  | 0, cs => some ([], cs)
  | _ + 1, [] => none
  | n + 1, c :: cs =>
    if isHexDigitCh c then (takeHexN n cs).map (fun p => (c :: p.1, p.2))
    else none

/-- Match `0x[a-fA-F0-9]{64}` at the head; returns (matched text, rest).
As in JS, nothing after the 64 digits is required, so a longer hex run
still matches on its first 64 digits. -/
def parseHex64 : List Char → Option (List Char × List Char)
  | '0' :: 'x' :: rest =>
    (takeHexN 64 rest).map (fun p => ('0' :: 'x' :: p.1, p.2))
  | _ => none

/-- Matched text of `/tx/0x[a-fA-F0-9]{64}` at the head. -/
def parseTxTail (cs : List Char) : Option (List Char) :=
  (dropLit ['/', 't', 'x', '/'] cs).bind fun rest =>
    (parseHex64 rest).map (fun p => '/' :: 't' :: 'x' :: '/' :: p.1)

/-- Lazy `\S*?` followed by the `/tx/...` tail: the shortest run of
non-whitespace characters after which the tail matches. -/
def lazyNonSpaceTx : List Char → Option (List Char)
  | [] => parseTxTail []
  | c :: rest =>
    match parseTxTail (c :: rest) with
    | some m => some m
    | none => if wsChar c then none else (lazyNonSpaceTx rest).map (c :: ·)

/-- Matched text of `https?:\/\/\S*?\/tx\/0x[a-fA-F0-9]{64}` anchored at
the head (case-sensitive, as the source regex carries no `i` flag). -/
def urlMatchAt (cs : List Char) : Option (List Char) :=
  (dropLit ['h', 't', 't', 'p'] cs).bind fun r1 =>
    match r1 with
    | 's' :: r2 => (httpTail r2).map (fun m => 'h' :: 't' :: 't' :: 'p' :: 's' :: m)
    | _ => (httpTail r1).map (fun m => 'h' :: 't' :: 't' :: 'p' :: m)
where
  httpTail (cs : List Char) : Option (List Char) :=
    (dropLit [':', '/', '/'] cs).bind fun r =>
      (lazyNonSpaceTx r).map (fun m => ':' :: '/' :: '/' :: m)

/-- Leftmost match of the explorer URL pattern in the text. -/
def firstUrlMatch : List Char → Option (List Char)
  | [] => none
  | c :: rest =>
    match urlMatchAt (c :: rest) with
    | some m => some m
    | none => firstUrlMatch rest

/-- Leftmost occurrence of `0x[a-fA-F0-9]{64}` (the inner
`url[0].match(/0x[a-fA-F0-9]{64}/)` extraction). -/
def firstHex64In : List Char → Option (List Char)
  | [] => none
  | c :: rest =>
    match parseHex64 (c :: rest) with
    | some p => some p.1
    | none => firstHex64In rest

/-- A token of a labelled-field pattern: a literal or `\s*`. -/
inductive LabelTok
  | lit (cs : List Char)
  | wsStar

/-- Consume the label tokens (literals case-insensitively, `\s*` by
maximal munch, sound here because no following literal starts with
whitespace). -/
def dropLabelToks : List LabelTok → List Char → Option (List Char)
  | [], cs => some cs
  | .lit l :: ts, cs => (dropLitCI l cs).bind (dropLabelToks ts)
  | .wsStar :: ts, cs => dropLabelToks ts (cs.dropWhile (fun c => wsChar c))

/-- Match one labelled pattern `<label>\s*[:：]\s*(0x[a-fA-F0-9]{64})`
anchored at the head; returns the captured group (the `0x...` text). -/
def labelCaptureAt (toks : List LabelTok) (cs : List Char) : Option (List Char) :=
  (dropLabelToks toks cs).bind fun r1 =>
    match r1.dropWhile (fun c => wsChar c) with
    | c :: r2 =>
      if c == ':' || c == Char.ofNat 65306 then
        (parseHex64 (r2.dropWhile (fun c => wsChar c))).map (fun p => p.1)
      else none
    | [] => none

/-- Leftmost match of one labelled pattern in the text. -/
def scanLabel (toks : List LabelTok) : List Char → Option (List Char)
  | [] => none
  | c :: rest =>
    match labelCaptureAt toks (c :: rest) with
    | some m => some m
    | none => scanLabel toks rest

/-- The labelled-field patterns of `extractTxHashFromText`, in source
order (all carry the `i` flag; `[:：]` allows the fullwidth colon). -/
def labelPatterns : List (List LabelTok) :=
  [[.lit "TxID".data],
   [.lit "Tx".data, .wsStar, .lit "Id".data],
   [.lit "TxHash".data],
   [.lit "Tx".data, .wsStar, .lit "Hash".data],
   [.lit "Transaction".data, .wsStar, .lit "Hash".data],
   [.lit "トランザクションID".data],
   [.lit "トランザクションハッシュ".data],
   [.lit "取引ID".data]]

/-- First labelled pattern (in listed order) with a match wins. -/
def firstLabelMatch : List (List LabelTok) → List Char → Option (List Char)
  | [], _ => none
  | p :: ps, cs =>
    match scanLabel p cs with
    | some m => some m
    | none => firstLabelMatch ps cs

/-- `extractTxHashFromText` (email-ingest lines 99-124): the explorer URL
pattern first, then the labelled patterns in order, and deliberately no
fallback to a bare hex token.  (The guard `if (!text) return null` is
subsumed: every scanner returns `none` on the empty text.) -/
def extractTxHashFromText (text : String) : Option String :=
  match (firstUrlMatch text.data).bind firstHex64In with
  | some hx => some (String.mk hx)
  | none => (firstLabelMatch labelPatterns text.data).map String.mk

/-! ### RFC 2047 decoding and the balance-mail detector -/

/-- Base64 alphabet value of a character, if any. -/
def b64CharVal (c : Char) : Option Nat :=
  if decide ('A' ≤ c ∧ c ≤ 'Z') then some (c.toNat - 65)
  else if decide ('a' ≤ c ∧ c ≤ 'z') then some (c.toNat - 71)
  else if decide ('0' ≤ c ∧ c ≤ '9') then some (c.toNat + 4)
  else if c == '+' then some 62
  else if c == '/' then some 63
  else none

/-- Reassemble 6-bit groups into bytes (trailing partial groups as Node
does: 3 values give 2 bytes, 2 values 1 byte, 1 value nothing). -/
def b64Regroup : List Nat → List Nat
  | v0 :: v1 :: v2 :: v3 :: rest =>
    (v0 * 4 + v1 / 16) :: (v1 % 16 * 16 + v2 / 4) :: (v2 % 4 * 64 + v3) :: b64Regroup rest
  | [v0, v1, v2] => [v0 * 4 + v1 / 16, v1 % 16 * 16 + v2 / 4]
  | [v0, v1] => [v0 * 4 + v1 / 16]
  | _ => []

/-- `Buffer.from(s, 'base64')`: non-alphabet characters (including `=`
padding) are skipped, then 6-bit groups become bytes. -/
def b64Decode (cs : List Char) : List Nat := b64Regroup (cs.filterMap b64CharVal)

def replacementChar : Char := Char.ofNat 65533

/-- Lossy UTF-8 decoding (`buffer.toString('utf8')`): well-formed
sequences decode to their scalar, malformed bytes to U+FFFD.  (Node's
exact resynchronisation on malformed multi-byte runs differs in corner
cases; those arise only on corrupted base64 subject words.) -/
def utf8DecodeAux : Nat → List Nat → List Char
  | 0, _ => []
  | _, [] => []
  | fuel + 1, b :: rest =>
    if b < 128 then Char.ofNat b :: utf8DecodeAux fuel rest
    else if 194 ≤ b ∧ b ≤ 223 then
      match rest with
      | b2 :: rest2 =>
        if 128 ≤ b2 ∧ b2 ≤ 191 then
          Char.ofNat ((b - 192) * 64 + (b2 - 128)) :: utf8DecodeAux fuel rest2
        else replacementChar :: utf8DecodeAux fuel rest
      | [] => [replacementChar]
    else if 224 ≤ b ∧ b ≤ 239 then
      match rest with
      | b2 :: b3 :: rest2 =>
        if (128 ≤ b2 ∧ b2 ≤ 191) ∧ (128 ≤ b3 ∧ b3 ≤ 191) then
          let n := (b - 224) * 4096 + (b2 - 128) * 64 + (b3 - 128)
          (if 55296 ≤ n ∧ n ≤ 57343 then replacementChar else Char.ofNat n) ::
            utf8DecodeAux fuel rest2
        else replacementChar :: utf8DecodeAux fuel rest
      | _ => [replacementChar]
    else if 240 ≤ b ∧ b ≤ 244 then
      match rest with
      | b2 :: b3 :: b4 :: rest2 =>
        if (128 ≤ b2 ∧ b2 ≤ 191) ∧ (128 ≤ b3 ∧ b3 ≤ 191) ∧ (128 ≤ b4 ∧ b4 ≤ 191) then
          Char.ofNat ((b - 240) * 262144 + (b2 - 128) * 4096 + (b3 - 128) * 64 + (b4 - 128)) ::
            utf8DecodeAux fuel rest2
        else replacementChar :: utf8DecodeAux fuel rest
      | _ => [replacementChar]
    else replacementChar :: utf8DecodeAux fuel rest

def utf8DecodeBytes (bs : List Nat) : List Char := utf8DecodeAux bs.length bs

/-- The prefix `=?utf-8?<kind>?` of an RFC 2047 encoded word. -/
def encWordMarker (kind : Char) : List Char :=
  ['=', '?', 'u', 't', 'f', '-', '8', '?', kind, '?']

/-- Match `=?utf-8?<kind>?([^?]+)?=` at the head (case-insensitively);
returns the captured payload and the rest. -/
def tryEncWordAt (kind : Char) (cs : List Char) : Option (List Char × List Char) :=
  (dropLitCI (encWordMarker kind) cs).bind fun rest =>
    let cap := rest.takeWhile (fun c => !(c == '?'))
    if cap.isEmpty then none
    else
      match rest.drop cap.length with
      | '?' :: '=' :: rest2 => some (cap, rest2)
      | _ => none

/-- Global replacement of base64 encoded words
(`/=\?utf-8\?b\?([^?]+)\?=/gi`): decode payload as base64 then UTF-8.
Fuel is the input length; each step consumes at least one character. -/
def decodeEncWordsB : Nat → List Char → List Char
  | 0, cs => cs
  | _ + 1, [] => []
  | fuel + 1, c :: rest =>
    match tryEncWordAt 'b' (c :: rest) with
    | some (cap, rest2) => utf8DecodeBytes (b64Decode cap) ++ decodeEncWordsB fuel rest2
    | none => c :: decodeEncWordsB fuel rest

/-- Q-encoding pass 1: `q.replace(/_/g, ' ')`. -/
def qUnderscoreToSpace (cs : List Char) : List Char :=
  cs.map (fun c => if c == '_' then ' ' else c)

/-- Q-encoding pass 2: `=XX` hex pairs become `String.fromCharCode` code
units (a code unit per byte, not UTF-8 reassembly, exactly as in source). -/
def qHexDecodeAux : Nat → List Char → List Char
  | 0, cs => cs
  | _ + 1, [] => []
  | fuel + 1, '=' :: rest =>
    match rest with
    | h1 :: h2 :: rest2 =>
      if isHexDigitCh h1 && isHexDigitCh h2 then
        Char.ofNat (hexDigitVal h1 * 16 + hexDigitVal h2) :: qHexDecodeAux fuel rest2
      else '=' :: qHexDecodeAux fuel rest
    | _ => '=' :: qHexDecodeAux fuel rest
  | fuel + 1, c :: rest => c :: qHexDecodeAux fuel rest

def qDecode (cs : List Char) : List Char :=
  qHexDecodeAux (qUnderscoreToSpace cs).length (qUnderscoreToSpace cs)

/-- Global replacement of Q-encoded words (`/=\?utf-8\?q\?([^?]+)\?=/gi`). -/
def decodeEncWordsQ : Nat → List Char → List Char
  | 0, cs => cs
  | _ + 1, [] => []
  | fuel + 1, c :: rest =>
    match tryEncWordAt 'q' (c :: rest) with
    | some (cap, rest2) => qDecode cap ++ decodeEncWordsQ fuel rest2
    | none => c :: decodeEncWordsQ fuel rest

/-- `decodeRfc2047` (lines 520-533): base64 words first, then Q words. -/
def decodeRfc2047Chars (cs : List Char) : List Char :=
  let b := decodeEncWordsB cs.length cs
  decodeEncWordsQ b.length b

def decodeRfc2047 (s : String) : String := String.mk (decodeRfc2047Chars s.data)

/-- Everything before the first `\n\n` (`raw.indexOf('\n\n')`), or the
whole input when absent. -/
def upToDoubleNl : List Char → List Char
  | [] => []
  | '\n' :: '\n' :: _ => []
  | c :: rest => c :: upToDoubleNl rest

/-- Split on `\n`. -/
def splitOnNl : List Char → List (List Char)
  | [] => [[]]
  | c :: rest =>
    let r := splitOnNl rest
    if c == '\n' then [] :: r
    else
      match r with
      | [] => [[c]]
      | h :: t => (c :: h) :: t

/-- Drop one trailing CR (the `\r?` of the `/\r?\n/` separator). -/
def stripTrailingCR (l : List Char) : List Char :=
  match l.reverse with
  | '\r' :: r => r.reverse
  | _ => l

/-- `headers.split(/\r?\n/)`: split on LF, with the CR preceding each LF
consumed (the final piece keeps any stray CR). -/
def splitLinesJS (cs : List Char) : List (List Char) :=
  mapAllButLast (splitOnNl cs)
where
  mapAllButLast : List (List Char) → List (List Char)
    | [] => []
    | [x] => [x]
    | x :: xs => stripTrailingCR x :: mapAllButLast xs

def trimWs (cs : List Char) : List Char :=
  List.reverse (List.dropWhile (fun c => wsChar c)
    (List.reverse (List.dropWhile (fun c => wsChar c) cs)))

/-- Continuation lines: while a line starts with whitespace
(`/^[\t\s]/`), append a space and the trimmed line; the first other line
stops the capture. -/
def subjectCont (subj : List Char) : List (List Char) → List Char
  | [] => subj
  | line :: rest =>
    match line with
    | c :: _ =>
      if wsChar c then subjectCont (subj ++ ' ' :: trimWs line) rest
      else subj
    | [] => subj

/-- Find the `Subject:` header (`/^Subject:\s*(.*)$/i`) and fold its
continuation lines. -/
def subjectFromLines : List (List Char) → List Char
  | [] => []
  | line :: rest =>
    match dropLitCI "Subject:".data line with
    | some r => subjectCont (r.dropWhile (fun c => wsChar c)) rest
    | none => subjectFromLines rest

/-- `extractSubject` (lines 535-556). -/
def extractSubject (rawEmail : String) : String :=
  String.mk (trimWs (decodeRfc2047Chars
    (subjectFromLines (splitLinesJS (upToDoubleNl rawEmail.data)))))

/-- The gap of `<lit>\s*.*\s*<lit>` (no `s` flag): after stripping the
maximal whitespace prefix and suffix, the middle may not contain a line
terminator.  Such a decomposition exists exactly when the maximal one
works, since `.` accepts every non-terminator including spaces. -/
def gapMatches (cs : List Char) : Bool :=
  (List.dropWhile (fun c => wsChar c)
    (List.reverse (List.dropWhile (fun c => wsChar c) cs))).all (fun c => !lineTermCh c)

/-- All splits of a list into a prefix/suffix pair. -/
def prefixSplits : List Char → List (List Char × List Char)
  | [] => [([], [])]
  | c :: cs => ([], c :: cs) :: (prefixSplits cs).map (fun p => (c :: p.1, p.2))

/-- Whether `/<first>\s*.*\s*<second>/` matches somewhere in `hay`. -/
def containsSeqGap (first second hay : List Char) : Bool :=
  (suffixesL hay).any (fun sfx =>
    prefixEq first sfx &&
    (prefixSplits (sfx.drop first.length)).any (fun p =>
      prefixEq second p.2 && gapMatches p.1))

/-- The balance keyword battery shared by the subject and body branches
of `isBalanceMail`: `wallet`+`balance`, the Japanese wallet-balance
literal, the two gap patterns and the balance-notice literal. -/
def balanceKeywordHit (hay : List Char) : Bool :=
  (strHas "wallet".data hay && strHas "balance".data hay) ||
  strHas "ウォレット残高".data hay ||
  containsSeqGap "ウォレット".data "残高".data hay ||
  containsSeqGap "残高".data "ウォレット".data hay ||
  strHas "残高通知".data hay

/-- Replace `/<[^>]+>/g` by single spaces. -/
def stripTagsAux : Nat → List Char → List Char
  | 0, cs => cs
  | _ + 1, [] => []
  | fuel + 1, '<' :: rest =>
    let body := rest.takeWhile (fun c => !(c == '>'))
    if body.isEmpty then '<' :: stripTagsAux fuel rest
    else
      match rest.drop body.length with
      | '>' :: after => ' ' :: stripTagsAux fuel after
      | _ => '<' :: stripTagsAux fuel rest
  | fuel + 1, c :: rest => c :: stripTagsAux fuel rest

/-- Replace `/\s+/g` by single spaces. -/
def collapseWsAux : Nat → List Char → List Char
  | 0, cs => cs
  | _ + 1, [] => []
  | fuel + 1, c :: rest =>
    if wsChar c then ' ' :: collapseWsAux fuel (rest.dropWhile (fun d => wsChar d))
    else c :: collapseWsAux fuel rest

/-- `isBalanceMail` (lines 558-575): subject keywords first (only when
the subject is non-empty), then the lowercased, tag-stripped,
whitespace-collapsed body. -/
def isBalanceMail (text rawEmail : String) : Bool :=
  let subj := (extractSubject rawEmail).data.map Char.toLower
  if !subj.isEmpty && balanceKeywordHit subj then true
  else
    let lower := (decodeRfc2047Chars text.data).map Char.toLower
    let stripped := stripTagsAux lower.length lower
    balanceKeywordHit (collapseWsAux stripped.length stripped)

inductive EmailType
  | event (txHash : String)
  | balance
  | other
deriving DecidableEq

/-- `classifyEmail` (lines 126-131). -/
def classifyEmail (text rawEmail : String) : EmailType :=
  match extractTxHashFromText text with
  | some hx => .event hx
  | none => if isBalanceMail text rawEmail then .balance else .other

/-- Whether the text contains a bare `0x` + 64-hex-digit token anywhere
(the shape the classifier deliberately refuses to use on its own). -/
def hasBareHex64 (cs : List Char) : Bool :=
  (suffixesL cs).any (fun s => (parseHex64 s).isSome)

/-! ### Receipt resolver (email-ingest lines 200-214 and 652-657) -/

/-- One receipt log entry: `address` and `topics` may be absent
(`l.address || ''`, `Array.isArray(log.topics)`). -/
structure LogEntry where
  address : Option String
  topics : Option (List String)
deriving DecidableEq

/-- A receipt: `logs` may be absent or not an array. -/
structure Receipt where
  logs : Option (List LogEntry)
deriving DecidableEq

/-- `/^0x[0-9a-fA-F]{64}$/.test(s)`. -/
def isHex64Topic (s : String) : Bool :=
  match s.data with
  | '0' :: 'x' :: rest => decide (rest.length = 64) && rest.all isHexDigitCh
  | _ => false

/-- The entry loop of `extractCorrelationIdFromLogs`: first entry with at
least two topics whose second topic has the hash shape. -/
def findCorrelationTopic : List LogEntry → Option String
  | [] => none
  | l :: rest =>
    let topics := l.topics.getD []
    if 2 ≤ topics.length then
      if isHex64Topic (topics.getD 1 "") then some (topics.getD 1 "")
      else findCorrelationTopic rest
    else findCorrelationTopic rest

/-- `extractCorrelationIdFromLogs` with the configured contract address
threaded explicitly (the module lowercases the environment value once at
load, line 18; the filter lowercases each entry's address, line 202). -/
def extractCorrelationIdFromLogs (contractAddressEnv : String) (receipt : Option Receipt) :
    Option String :=
  let contractAddress := contractAddressEnv.toLower
  match receipt with
  | none => none
  | some r =>
    match r.logs with
    | none => none
    | some logs =>
      let targetLogs := logs.filter (fun l => (l.address.getD "").toLower == contractAddress)
      if targetLogs.isEmpty then none else findCorrelationTopic targetLogs

/-- The logs of a possibly-missing receipt, as the list the code
iterates (absent receipt or non-array `logs` yields no entries). -/
def logsOf : Option Receipt → List LogEntry
  | none => []
  | some r => r.logs.getD []

/-- Case-insensitive address comparison, the spec-side reading of the
filter. -/
def addrCIEq (a b : String) : Bool := a.toLower == b.toLower

/-- An entry the loop accepts: at least two topics and a hash-shaped
second topic. -/
def goodLogEntry (l : LogEntry) : Bool :=
  decide (2 ≤ (l.topics.getD []).length) && isHex64Topic ((l.topics.getD []).getD 1 "")

def secondTopic (l : LogEntry) : String := (l.topics.getD []).getD 1 ""

/-- The handler's use of the extraction result (lines 652-657): a missing
correlation id is the `SoftMiss: CorrelationIdNotFound` counter and a
skip, not an error. -/
inductive CorrelationStep
  | softMissNotFound
  | upsertWith (correlationIdHex : String)
deriving DecidableEq

def correlationStep (contractAddressEnv : String) (receipt : Option Receipt) :
    CorrelationStep :=
  match extractCorrelationIdFromLogs contractAddressEnv receipt with
  | none => .softMissNotFound
  | some hx => .upsertWith hx

/-! ### Orchestrator state machine (cdk/lib/state-machine-stack.ts)

Operational model of the deployed state graph: per attempt the machine
reads the Task and tests the configured success predicate (abstracted as
the oracle `found attempt pollCount`), incrementing `pollCount` until the
`PollLimitReached?` choice (`pollCount >= 14`) routes to `AttemptFailed`;
`EmitAttemptFailedMetric`, `IncrementAttempt` and `HasAttemptsLeft?`
(`attempt <= totalAttempts` after the increment) either start the next
attempt or emit `FinalFailed` and terminate in the `AllAttemptsFailed`
fail state; a satisfied predicate emits `Success` and succeeds.  Metrics
count the `putMetricData` calls.  Fuel keeps the recursions structural;
it is sufficient at every call site (`pollLimit` polls per attempt,
`totalAttempts` attempts per run). -/

def pollLimit : Nat := 14

def pollLoopAux (found : Nat → Bool) : Nat → Nat → Bool × Nat
  | 0, p => (false, p + 1)
  | fuel + 1, p =>
    if found p then (true, p)
    else if pollLimit ≤ p + 1 then (false, p + 1)
    else pollLoopAux found fuel (p + 1)

/-- One attempt's poll loop, from `pollCount = 0`; returns whether the
success predicate ever held and the final poll count. -/
def pollLoop (found : Nat → Bool) : Bool × Nat := pollLoopAux found pollLimit 0

structure SmMetrics where
  heartbeat : Nat
  success : Nat
  attemptFailed : Nat
  finalFailed : Nat
deriving DecidableEq

inductive SmOutcome
  | succeeded
  | allAttemptsFailed
deriving DecidableEq

def attemptLoopAux (found : Nat → Nat → Bool) (totalAttempts : Nat) :
    Nat → Nat → SmMetrics × SmOutcome
  | 0, _ => (⟨0, 0, 0, 0⟩, .allAttemptsFailed)
  | fuel + 1, attempt =>
    match pollLoop (found attempt) with
    | (true, _) => (⟨0, 1, 0, 0⟩, .succeeded)
    | (false, _) =>
      if attempt + 1 ≤ totalAttempts then
        let r := attemptLoopAux found totalAttempts fuel (attempt + 1)
        ({ r.1 with attemptFailed := r.1.attemptFailed + 1 }, r.2)
      else (⟨0, 0, 1, 1⟩, .allAttemptsFailed)

/-- A full run: `InitAttempts` (attempt 1), the heartbeat metric, then
the attempt loop. -/
def runStateMachine (found : Nat → Nat → Bool) (totalAttempts : Nat) :
    SmMetrics × SmOutcome :=
  let r := attemptLoopAux found totalAttempts totalAttempts 1
  ({ r.1 with heartbeat := r.1.heartbeat + 1 }, r.2)

/-! ### Derived views and statement-level definitions -/

/-- Tier-1 candidates of a sequential balance attach against table `s`. -/
def balanceTier1 (nowMs : Nat) (s : Store) : List Task := tier1Of (balanceQuery nowMs s)

/-- Tier-2 candidates of a sequential balance attach against table `s`. -/
def balanceTier2 (nowMs : Nat) (s : Store) : List Task := tier2Of (balanceQuery nowMs s)

/-- Well-formedness carried by every table reachable through the atomic
operations: correlation ids are unique and every record's stored status
is the pure function of its two flags. -/
def StatusOk (s : Store) : Prop :=
  (s.map Task.correlationId).Nodup ∧
  ∀ t ∈ s, t.status = statusOf t.correlationResolved t.balanceReceived

/-- Lowercase hex digit predicate (`digest('hex')` output alphabet). -/
def isLowerHexCh (c : Char) : Bool :=
  decide ('0' ≤ c ∧ c ≤ '9') || decide ('a' ≤ c ∧ c ≤ 'f')

/-! Concrete fixtures used by counterexamples and witnesses. -/

/-- Flag preservation between two table states: every record found
before is still found, and a set completion flag stays set. -/
def FlagStep (s s' : Store) : Prop :=
  ∀ cid t, getTask s cid = some t →
    ∃ u, getTask s' cid = some u ∧
      (t.correlationResolved = true → u.correlationResolved = true) ∧
      (t.balanceReceived = true → u.balanceReceived = true)

/-- A task whose event flag is already set. -/
def c3Task : Task :=
  { correlationId := "c1"
    correlationIdHex := "0xH"
    createdAtMs := 1000
    attempt := 1
    totalAttempts := 3
    status := "EVENT_ONLY"
    correlationResolved := true
    balanceReceived := false
    txHash := some "0xAAA"
    eventEmailAtMs := some 900
    balanceEmailAtMs := none
    updatedAtMs := 900
    ttl := 1 }

/-- A table holding one task whose event flag is already set. -/
def c3Store : Store := [c3Task]

/-- A task with both notifications pending, for the retry-frame witness. -/
def c5Task : Task :=
  { correlationId := "c5"
    correlationIdHex := "0x5"
    createdAtMs := 4000
    attempt := 1
    totalAttempts := 3
    status := "BALANCE_ONLY"
    correlationResolved := false
    balanceReceived := true
    txHash := none
    eventEmailAtMs := none
    balanceEmailAtMs := some 4400
    updatedAtMs := 4400
    ttl := 1 }

def c5Store : Store := [c5Task]

/-- Interleaving trace for the status/flags divergence: the table after
the idempotent create. -/
def c1Store1 : Store := (initRecord "cid-1" (some "0xhash1") 1 3 1000000 []).1

/-- The balance path's window-query snapshot, taken before the event
path runs (its one task still shows both flags false). -/
def c1Snapshot : List Task := balanceQuery 1000000 c1Store1

/-- The table after the event path commits (flags (true, false),
status EVENT_ONLY). -/
def c1Store2 : Store := (upsertEventRecord "0xhash1" "0xAAA" 1000010 1000010 c1Store1).1

/-- The table after the balance path commits against the newer table
using its stale snapshot. -/
def c1Store3 : Store := (attachBalanceCommit 1000020 c1Snapshot c1Store2).1

/-- The single task created by the witness run of the sequential
invariant. -/
def c1WitnessTask : Task :=
  { correlationId := "a"
    correlationIdHex := "0xh"
    createdAtMs := 5
    attempt := 1
    totalAttempts := 3
    status := "PENDING"
    correlationResolved := false
    balanceReceived := false
    txHash := none
    eventEmailAtMs := none
    balanceEmailAtMs := none
    updatedAtMs := 5
    ttl := 157680000 }

/-- Tier-1 witness candidate: event received, balance pending. -/
def c4TaskA : Task :=
  { correlationId := "cidA"
    correlationIdHex := "0xA"
    createdAtMs := 999000
    attempt := 1
    totalAttempts := 3
    status := "EVENT_ONLY"
    correlationResolved := true
    balanceReceived := false
    txHash := some "0xAAA"
    eventEmailAtMs := some 999500
    balanceEmailAtMs := none
    updatedAtMs := 999500
    ttl := 1 }

/-- Tier-2 witness candidate: neither notification received. -/
def c4TaskB : Task :=
  { correlationId := "cidB"
    correlationIdHex := "0xB"
    createdAtMs := 998000
    attempt := 1
    totalAttempts := 3
    status := "PENDING"
    correlationResolved := false
    balanceReceived := false
    txHash := none
    eventEmailAtMs := none
    balanceEmailAtMs := none
    updatedAtMs := 998000
    ttl := 1 }

def c4Store : Store := [c4TaskB, c4TaskA]

/-- A pending candidate as a balance path may see it in a stale
snapshot. -/
def c6Cand : Task :=
  { correlationId := "c6"
    correlationIdHex := "0x6"
    createdAtMs := 700
    attempt := 1
    totalAttempts := 3
    status := "PENDING"
    correlationResolved := false
    balanceReceived := false
    txHash := none
    eventEmailAtMs := none
    balanceEmailAtMs := none
    updatedAtMs := 700
    ttl := 1 }

/-- A success-predicate oracle that never holds (scenario D). -/
def neverFound : Nat → Nat → Bool := fun _ _ => false

/-- Bare 64-hex-token message for the classifier-precision witness. -/
def c7Text : String := "0x" ++ String.mk (List.replicate 64 'a')

/-- A log entry from an unrelated contract. -/
def c8Entry1 : LogEntry :=
  { address := some "0xother"
    topics := some ["t0", "0x" ++ String.mk (List.replicate 64 '1')] }

/-- A monitored-contract log entry carrying a hash-shaped second topic. -/
def c8Entry2 : LogEntry :=
  { address := some "0xABc"
    topics := some ["t0", "0x" ++ String.mk (List.replicate 64 '2')] }

/-- A receipt holding the two entries above. -/
def c8Receipt : Option Receipt := some { logs := some [c8Entry1, c8Entry2] }

/-! ## Theorems

General lemmas about the embedded operations first, then one theorem per
claim (with its witness or counterexample). -/

theorem mem_insertByCreated {t x : Task} {l : List Task} :
    x ∈ insertByCreated t l ↔ x = t ∨ x ∈ l := by
  induction l with
  | nil => simp [insertByCreated]
  | cons u us ih =>
      by_cases h : u.createdAtMs ≤ t.createdAtMs
      · simp [insertByCreated, h]
      · simp only [insertByCreated, if_neg h, List.mem_cons, ih]
        tauto

theorem mem_sortByCreatedDesc {x : Task} {l : List Task} :
    x ∈ sortByCreatedDesc l ↔ x ∈ l := by
  induction l with
  | nil => simp [sortByCreatedDesc]
  | cons u us ih => simp [sortByCreatedDesc, mem_insertByCreated, ih]

theorem mem_of_mem_eventQuery {hex : String} {s : Store} {t : Task}
    (h : t ∈ eventQuery hex s) :
    t ∈ s ∧ t.correlationIdHex = hex ∧ t.correlationResolved = false := by
  have h' := List.mem_filter.mp h
  have hmem : t ∈ s := mem_sortByCreatedDesc.mp (List.take_subset _ _ h'.1)
  have hp := h'.2
  simp only [Bool.and_eq_true, beq_iff_eq] at hp
  exact ⟨hmem, hp.1, hp.2⟩

theorem mem_of_mem_balanceQuery {nowMs : Nat} {s : Store} {t : Task}
    (h : t ∈ balanceQuery nowMs s) : t ∈ s := by
  have h' := List.take_subset _ _ h
  exact (List.mem_filter.mp (mem_sortByCreatedDesc.mp h')).1

theorem getTask_map_pres {g : Task → Task}
    (hg : ∀ x, (g x).correlationId = x.correlationId) (s : Store) (cid : String) :
    getTask (s.map g) cid = (getTask s cid).map g := by
  induction s with
  | nil => rfl
  | cons x xs ih =>
      by_cases h : x.correlationId == cid
      · have hgx : ((g x).correlationId == cid) = true := by rw [hg x]; exact h
        simp [getTask, List.find?_cons, hgx, h] at *
      · have hgx : ((g x).correlationId == cid) = false := by
          rw [hg x]; exact Bool.of_not_eq_true h
        simp only [getTask, List.map_cons, List.find?_cons, hgx,
          Bool.of_not_eq_true h] at *
        exact ih

theorem getTask_append_left {s l2 : Store} {cid : String} {t : Task}
    (h : getTask s cid = some t) : getTask (s ++ l2) cid = some t := by
  induction s with
  | nil => simp [getTask] at h
  | cons x xs ih =>
      by_cases hx : x.correlationId == cid
      · simp only [getTask, List.cons_append, List.find?_cons, hx] at h ⊢
        exact h
      · simp only [getTask, List.cons_append, List.find?_cons,
          Bool.of_not_eq_true hx] at h ⊢
        exact ih h

theorem task_eq_of_cid {s : Store} {x y : Task}
    (hnd : (s.map Task.correlationId).Nodup) (hx : x ∈ s) (hy : y ∈ s)
    (hcid : x.correlationId = y.correlationId) : x = y := by
  induction s with
  | nil => cases hx
  | cons u us ih =>
      rw [List.map_cons, List.nodup_cons] at hnd
      rcases List.mem_cons.mp hx with hx1 | hx2 <;>
        rcases List.mem_cons.mp hy with hy1 | hy2
      · rw [hx1, hy1]
      · subst hx1
        exact absurd (List.mem_map.mpr ⟨y, hy2, hcid.symm⟩) hnd.1
      · subst hy1
        exact absurd (List.mem_map.mpr ⟨x, hx2, hcid⟩) hnd.1
      · exact ih hnd.2 hx2 hy2

/-- C10: the `correlationIdHex32` of prepare-message and the
`correlationIdHex` fallback of init-record are the same pure function of
the correlation id, namely `0x` followed by the lowercase hex SHA-256
digest (64 lowercase hex digits). -/
theorem idHash_one_pure_function (cid : String) :
    toBytes32HexFromString cid = specIdHash cid ∧
    initCorrelationIdHex none cid = specIdHash cid ∧
    (specIdHash cid).data = '0' :: 'x' :: sha256HexChars cid ∧
    (sha256HexChars cid).length = 64 ∧
    ∀ c ∈ sha256HexChars cid, isLowerHexCh c = true := by
  refine ⟨rfl, rfl, rfl, ?_, ?_⟩
  · have hlen : (sha256Bytes (utf8Bytes cid)).length = 32 := by
      simp [sha256Bytes, hash8Bytes, wordBytesBE]
    have h2 : ∀ bs : List Nat, (bs.flatMap byteHexChars).length = 2 * bs.length := by
      intro bs
      induction bs with
      | nil => rfl
      | cons b bs ih => simp [byteHexChars, ih]; ring
    simp [sha256HexChars, h2, hlen]
  · intro c hc
    have hdig : ∀ m, m < 16 → isLowerHexCh (hexDigitChar m) = true := by decide
    rcases List.mem_flatMap.mp hc with ⟨b, _, hcb⟩
    simp only [byteHexChars, List.mem_cons, List.not_mem_nil, or_false] at hcb
    rcases hcb with h | h <;> rw [h]
    · exact hdig _ (Nat.mod_lt _ (by norm_num))
    · exact hdig _ (Nat.mod_lt _ (by norm_num))

/-- C3 (code evaluation at the failing input): a second Event
notification for a task whose event flag is already set is filtered out
of the lookup (`FilterExpression ... correlationResolved = :false`), so
`upsertEventRecord` takes the `SoftMiss: EventRecordNotFound` path — the
in-code `SoftMiss: EventDuplicate` branch is unreachable — and leaves
the table, in particular the stored `txHash`, unchanged. -/
theorem duplicate_event_takes_not_found_path :
    upsertEventRecord "0xH" "0xCCC" 2000 2000 c3Store =
      (c3Store, EventOutcome.recordNotFound) ∧
    (getTask c3Store "c1").map Task.txHash = some (some "0xAAA") := by decide

/-- C1 counterexample: under an interleaving in which the balance path
takes its window-query snapshot before a concurrent event path commits,
the balance commit (whose condition guards only `balanceReceived`)
stores the stale status `BALANCE_ONLY` next to flags `(true, true)`,
diverging from the pure function of the flags (`SUCCESS`). -/
theorem status_flags_interleaving_counterexample :
    (getTask c1Store3 "cid-1").map
        (fun t => (t.correlationResolved, t.balanceReceived, t.status)) =
      some (true, true, "BALANCE_ONLY") ∧
    statusOf true true = "SUCCESS" ∧ ("BALANCE_ONLY" : String) ≠ "SUCCESS" := by decide

theorem pollLoopAux_all_false {f : Nat → Bool} (hf : ∀ p, f p = false) :
    ∀ fuel p, (pollLoopAux f fuel p).1 = false := by
  intro fuel
  induction fuel with
  | zero => intro p; rfl
  | succ fuel ih =>
      intro p
      simp only [pollLoopAux, hf p, Bool.false_eq_true, if_false]
      by_cases h : pollLimit ≤ p + 1
      · simp [h]
      · simp [h, ih]

theorem attemptLoopAux_exhaust {found : Nat → Nat → Bool} {totalAttempts : Nat}
    (hf : ∀ a p, found a p = false) :
    ∀ fuel attempt, attempt ≤ totalAttempts → totalAttempts + 1 ≤ fuel + attempt →
      attemptLoopAux found totalAttempts fuel attempt =
        (⟨0, 0, totalAttempts + 1 - attempt, 1⟩, .allAttemptsFailed) := by
  intro fuel
  induction fuel with
  | zero => intro attempt h1 h2; omega
  | succ fuel ih =>
      intro attempt h1 h2
      have hpoll : (pollLoop (found attempt)).1 = false :=
        pollLoopAux_all_false (hf attempt) _ _
      rcases hp : pollLoop (found attempt) with ⟨b, n⟩
      rw [hp] at hpoll
      simp only at hpoll
      subst hpoll
      by_cases hc : attempt + 1 ≤ totalAttempts
      · simp [attemptLoopAux, hp, hc, ih (attempt + 1) hc (by omega)]
        all_goals omega
      · simp [attemptLoopAux, hp, hc]
        all_goals omega

/-- C9: when the success predicate never holds, a run with
`totalAttempts` attempts emits exactly one `AttemptFailed` metric per
attempt (so `totalAttempts` in all), exactly one `FinalFailed` metric,
never a `Success` metric, and terminates in the `AllAttemptsFailed`
fail state. -/
theorem orchestrator_exhaustion (found : Nat → Nat → Bool) (totalAttempts : Nat)
    (htot : 1 ≤ totalAttempts) (hf : ∀ a p, found a p = false) :
    (runStateMachine found totalAttempts).1.attemptFailed = totalAttempts ∧
    (runStateMachine found totalAttempts).1.finalFailed = 1 ∧
    (runStateMachine found totalAttempts).1.success = 0 ∧
    (runStateMachine found totalAttempts).2 = SmOutcome.allAttemptsFailed := by
  have h := attemptLoopAux_exhaust hf totalAttempts 1 htot (by omega)
  simp [runStateMachine, h]

/-- Witness for C9: the concrete scenario-D run with two attempts. -/
theorem orchestrator_exhaustion_witness :
    (runStateMachine neverFound 2).1.attemptFailed = 2 ∧
    (runStateMachine neverFound 2).1.finalFailed = 1 ∧
    (runStateMachine neverFound 2).1.success = 0 ∧
    (runStateMachine neverFound 2).2 = SmOutcome.allAttemptsFailed :=
  orchestrator_exhaustion neverFound 2 (by decide) (fun _ _ => rfl)

theorem findCorrelationTopic_eq (ls : List LogEntry) :
    findCorrelationTopic ls = (ls.find? goodLogEntry).map secondTopic := by
  induction ls with
  | nil => rfl
  | cons l rest ih =>
      by_cases h2 : 2 ≤ (l.topics.getD []).length
      · by_cases hh : isHex64Topic ((l.topics.getD []).getD 1 "") = true
        · have hg : goodLogEntry l = true := by
            simp only [goodLogEntry, Bool.and_eq_true, decide_eq_true_eq]
            exact ⟨h2, hh⟩
          simp only [findCorrelationTopic, if_pos h2, if_pos hh, List.find?_cons, hg]
          simp [secondTopic]
        · have hg : goodLogEntry l = false := by
            simp only [goodLogEntry, Bool.and_eq_false_imp, decide_eq_true_eq]
            intro _
            simpa using Bool.of_not_eq_true hh
          simp only [findCorrelationTopic, if_pos h2, if_neg hh, List.find?_cons, hg, ih]
      · have hg : goodLogEntry l = false := by
          simp [goodLogEntry, decide_eq_false h2]
        simp only [findCorrelationTopic, if_neg h2, List.find?_cons, hg, ih]

/-- C8: the correlation extraction keeps exactly the log entries whose
source address equals the configured contract address case-insensitively
and returns the second topic of the first kept entry with at least two
topics and a `0x`+64-hex-shaped second topic (`none` when no such entry
exists, including a missing receipt or non-array `logs`); and the
handler treats the `none` outcome as the `SoftMiss: CorrelationIdNotFound`
counter, not an error. -/
theorem extract_correlation_characterization (contractAddressEnv : String)
    (receipt : Option Receipt) :
    extractCorrelationIdFromLogs contractAddressEnv receipt =
      (((logsOf receipt).filter
          (fun l => addrCIEq (l.address.getD "") contractAddressEnv)).find?
        goodLogEntry).map secondTopic ∧
    (correlationStep contractAddressEnv receipt = CorrelationStep.softMissNotFound ↔
      extractCorrelationIdFromLogs contractAddressEnv receipt = none) := by
  constructor
  · cases receipt with
    | none => rfl
    | some r =>
        cases hr : r.logs with
        | none => simp [extractCorrelationIdFromLogs, logsOf, hr]
        | some logs =>
            simp only [extractCorrelationIdFromLogs, logsOf, hr, Option.getD_some, addrCIEq]
            rcases hfl : logs.filter
                (fun l => (l.address.getD "").toLower == contractAddressEnv.toLower)
              with _ | ⟨a, as⟩
            · simp [hfl]
            · simp [hfl, findCorrelationTopic_eq]
  · cases hx : extractCorrelationIdFromLogs contractAddressEnv receipt with
    | none => simp [correlationStep, hx]
    | some v => simp [correlationStep, hx]

/-- Witness for C8: the characterization evaluated on a concrete receipt
(address compared case-insensitively, first entry filtered away). -/
theorem extract_correlation_characterization_witness :
    extractCorrelationIdFromLogs "0xAbC" c8Receipt =
      (((logsOf c8Receipt).filter
          (fun l => addrCIEq (l.address.getD "") "0xAbC")).find?
        goodLogEntry).map secondTopic :=
  (extract_correlation_characterization "0xAbC" c8Receipt).1

theorem balanceLoop_ne_noCandidate (nowMs : Nat) (cands : List Task) (s : Store) :
    (balanceLoop nowMs cands s).2 ≠ BalanceOutcome.noCandidate := by
  induction cands generalizing s with
  | nil => simp [balanceLoop]
  | cons c rest ih =>
      by_cases h : ∃ u ∈ s, u.correlationId = c.correlationId ∧ u.balanceReceived = false
      · simp [balanceLoop, condUpdate, h]
      · have hskip : balanceLoop nowMs (c :: rest) s = balanceLoop nowMs rest s := by
          simp [balanceLoop, condUpdate, h]
        rw [hskip]
        exact ih s

theorem balanceLoop_duplicate_iff (nowMs : Nat) (cands : List Task) (s : Store) :
    (balanceLoop nowMs cands s).2 = BalanceOutcome.duplicate ↔
      ∀ c ∈ cands,
        ¬ ∃ u ∈ s, u.correlationId = c.correlationId ∧ u.balanceReceived = false := by
  induction cands with
  | nil => simp [balanceLoop]
  | cons c rest ih =>
      by_cases h : ∃ u ∈ s, u.correlationId = c.correlationId ∧ u.balanceReceived = false
      · have hout : (balanceLoop nowMs (c :: rest) s).2 =
            BalanceOutcome.attached c.correlationId := by
          simp [balanceLoop, condUpdate, h]
        rw [hout]
        refine iff_of_false (by simp) ?_
        intro hall
        exact hall c (List.mem_cons_self c rest) h
      · have hskip : balanceLoop nowMs (c :: rest) s = balanceLoop nowMs rest s := by
          simp [balanceLoop, condUpdate, h]
        rw [hskip, ih]
        constructor
        · intro hrest c' hc'
          rcases List.mem_cons.mp hc' with hceq | hm
          · subst hceq
            exact h
          · exact hrest c' hm
        · intro hall c' hc'
          exact hall c' (List.mem_cons_of_mem _ hc')

theorem balanceLoop_store_of_duplicate (nowMs : Nat) (cands : List Task) (s : Store)
    (h : (balanceLoop nowMs cands s).2 = BalanceOutcome.duplicate) :
    (balanceLoop nowMs cands s).1 = s := by
  induction cands with
  | nil => rfl
  | cons c rest ih =>
      by_cases ha : ∃ u ∈ s, u.correlationId = c.correlationId ∧ u.balanceReceived = false
      · exfalso
        have hout : (balanceLoop nowMs (c :: rest) s).2 =
            BalanceOutcome.attached c.correlationId := by
          simp [balanceLoop, condUpdate, ha]
        rw [hout] at h
        cases h
      · have hskip : balanceLoop nowMs (c :: rest) s = balanceLoop nowMs rest s := by
          simp [balanceLoop, condUpdate, ha]
        rw [hskip] at h ⊢
        exact ih h

/-- C6: the balance attach emits the `SoftMiss: BalanceNoCandidate`
counter exactly when the tiered candidate list is empty, emits the
`SoftMiss: BalanceDuplicate` counter exactly when the candidate list is
non-empty and every candidate's conditional update conflicts (no row
with that id still has `balanceReceived = false`, i.e. all were
concurrently claimed), and in both cases leaves the table unchanged. -/
theorem attach_balance_softmiss_outcomes (nowMs : Nat) (items : List Task) (s : Store) :
    ((attachBalanceCommit nowMs items s).2 = BalanceOutcome.noCandidate ↔
      balanceCandidatesOf items = []) ∧
    ((attachBalanceCommit nowMs items s).2 = BalanceOutcome.duplicate ↔
      (balanceCandidatesOf items ≠ [] ∧
        ∀ c ∈ balanceCandidatesOf items,
          ¬ ∃ u ∈ s, u.correlationId = c.correlationId ∧ u.balanceReceived = false)) ∧
    (((attachBalanceCommit nowMs items s).2 = BalanceOutcome.noCandidate ∨
        (attachBalanceCommit nowMs items s).2 = BalanceOutcome.duplicate) →
      (attachBalanceCommit nowMs items s).1 = s) := by
  rcases hc : balanceCandidatesOf items with _ | ⟨c0, cs⟩
  · simp [attachBalanceCommit, hc]
  · have hred : attachBalanceCommit nowMs items s = balanceLoop nowMs (c0 :: cs) s := by
      simp [attachBalanceCommit, hc]
    rw [hred]
    refine ⟨iff_of_false (balanceLoop_ne_noCandidate nowMs (c0 :: cs) s) (by simp), ?_, ?_⟩
    · rw [balanceLoop_duplicate_iff]
      simp
    · rintro (hno | hdup)
      · exact absurd hno (balanceLoop_ne_noCandidate nowMs (c0 :: cs) s)
      · exact balanceLoop_store_of_duplicate nowMs (c0 :: cs) s hdup

/-- Witness for C6: a single stale pending candidate whose row was
already claimed (here: no longer present with a false flag), yielding
the duplicate soft miss. -/
theorem attach_balance_softmiss_outcomes_witness :
    (attachBalanceCommit 5 [c6Cand] []).2 = BalanceOutcome.duplicate :=
  ((attach_balance_softmiss_outcomes 5 [c6Cand] []).2.1).mpr ⟨by decide, by decide⟩

/-- C4: with exactly one eligible tier-1 candidate and one eligible
tier-2 candidate in the window, a single balance notification applies to
the tier-1 candidate (its `balanceReceived` is set and the attach
reports it), while every record keyed like the tier-2 candidate is left
exactly as it was. -/
theorem balance_tiering_prefers_tier1 (nowMs : Nat) (s : Store) (t1 t2 : Task)
    (h1 : balanceTier1 nowMs s = [t1]) (h2 : balanceTier2 nowMs s = [t2])
    (hne : t1.correlationId ≠ t2.correlationId) :
    (attachBalanceByTimeWindow nowMs s).2 = BalanceOutcome.attached t1.correlationId ∧
    (∀ u ∈ (attachBalanceByTimeWindow nowMs s).1,
      u.correlationId = t1.correlationId → u.balanceReceived = true) ∧
    (∀ u ∈ (attachBalanceByTimeWindow nowMs s).1,
      u.correlationId = t2.correlationId → u ∈ s) := by
  have ht1m : t1 ∈ tier1Of (balanceQuery nowMs s) := by
    rw [show tier1Of (balanceQuery nowMs s) = balanceTier1 nowMs s from rfl, h1]
    exact List.mem_cons_self t1 []
  have ht1f := List.mem_filter.mp ht1m
  have ht1s : t1 ∈ s := mem_of_mem_balanceQuery ht1f.1
  have hbal : t1.balanceReceived = false := by
    have hp := ht1f.2
    simp only [Bool.and_eq_true, Bool.not_eq_true'] at hp
    exact hp.2
  have hany : s.any (fun t => t.correlationId == t1.correlationId &&
      t.balanceReceived == false) = true :=
    List.any_eq_true.mpr ⟨t1, ht1s, by simp [hbal]⟩
  have hcand : balanceCandidatesOf (balanceQuery nowMs s) = [t1, t2] := by
    simp only [balanceCandidatesOf]
    rw [show tier1Of (balanceQuery nowMs s) = balanceTier1 nowMs s from rfl,
      show tier2Of (balanceQuery nowMs s) = balanceTier2 nowMs s from rfl, h1, h2]
    rfl
  have hcu : condUpdate t1.correlationId (fun t => t.balanceReceived == false)
      (balanceSet nowMs t1) s =
      (s.map (fun t => if t.correlationId == t1.correlationId &&
          t.balanceReceived == false then balanceSet nowMs t1 t else t), true) := by
    unfold condUpdate
    rw [if_pos hany]
  have hpair : attachBalanceByTimeWindow nowMs s =
      (s.map (fun t => if t.correlationId == t1.correlationId &&
          t.balanceReceived == false then balanceSet nowMs t1 t else t),
        BalanceOutcome.attached t1.correlationId) := by
    simp only [attachBalanceByTimeWindow, attachBalanceCommit, hcand, List.isEmpty_cons,
      Bool.false_eq_true, if_false, balanceLoop, hcu]
    simp
  refine ⟨by rw [hpair], ?_, ?_⟩
  · intro u hu hcid
    rw [hpair] at hu
    rcases List.mem_map.mp hu with ⟨v, hv, hvu⟩
    by_cases hg : (v.correlationId == t1.correlationId && v.balanceReceived == false) = true
    · rw [if_pos hg] at hvu
      rw [← hvu]
      rfl
    · rw [if_neg hg] at hvu
      cases hb : v.balanceReceived with
      | false =>
          exfalso
          apply hg
          have hvc : v.correlationId = t1.correlationId := by rw [hvu]; exact hcid
          simp [hvc, hb]
      | true => rw [← hvu]; exact hb
  · intro u hu hcid
    rw [hpair] at hu
    rcases List.mem_map.mp hu with ⟨v, hv, hvu⟩
    by_cases hg : (v.correlationId == t1.correlationId && v.balanceReceived == false) = true
    · exfalso
      rw [if_pos hg] at hvu
      have hvc : v.correlationId = t1.correlationId := by
        simp only [Bool.and_eq_true, beq_iff_eq] at hg
        exact hg.1
      apply hne
      calc t1.correlationId = v.correlationId := hvc.symm
        _ = u.correlationId := by rw [← hvu]; rfl
        _ = t2.correlationId := hcid
    · rw [if_neg hg] at hvu
      rw [← hvu]
      exact hv

/-- Witness for C4: the two-candidate window with one tier-1 and one
tier-2 task resolves the tier-1 task. -/
theorem balance_tiering_prefers_tier1_witness :
    (attachBalanceByTimeWindow 1000000 c4Store).2 =
      BalanceOutcome.attached c4TaskA.correlationId :=
  (balance_tiering_prefers_tier1 1000000 c4Store c4TaskA c4TaskB (by decide) (by decide)
    (by decide)).1

/-- C5: calling init-record for an already-existing correlation id takes
the retry branch and rewrites the keyed record to exactly its old value
with only `attempt`, `totalAttempts`, the `updatedAt` timestamp and
`ttl` replaced — the flags, `status`, `createdAt` fields,
`correlationIdHex`, `txHash` and the email timestamps are untouched. -/
theorem init_record_retry_frame (cid : String) (eventHex : Option String)
    (attemptIn totalAttemptsIn nowMs : Nat) (s : Store) (t : Task)
    (h : getTask s cid = some t) :
    (initRecord cid eventHex attemptIn totalAttemptsIn nowMs s).2 = InitResult.updated ∧
    getTask (initRecord cid eventHex attemptIn totalAttemptsIn nowMs s).1 cid =
      some { t with
        attempt := jsOrNat attemptIn 1
        totalAttempts := jsOrNat totalAttemptsIn 3
        updatedAtMs := nowMs
        ttl := (if t.createdAtMs = 0 then nowMs else t.createdAtMs) / 1000 +
          ttlSeconds5Years } := by
  have hf : s.find? (fun x => x.correlationId == cid) = some t := h
  have hg : ∀ x : Task,
      ((fun x => if x.correlationId == cid then
          bookkeepSet t (jsOrNat attemptIn 1) (jsOrNat totalAttemptsIn 3) nowMs x
        else x) x).correlationId = x.correlationId := by
    intro x
    by_cases hx : x.correlationId == cid
    · simp [hx, bookkeepSet]
    · simp [hx]
  have htp := List.find?_some hf
  constructor
  · simp only [initRecord, hf]
  · simp only [initRecord, hf]
    rw [getTask_map_pres hg s cid, h]
    show some (if (t.correlationId == cid) = true then
        bookkeepSet t (jsOrNat attemptIn 1) (jsOrNat totalAttemptsIn 3) nowMs t else t) = _
    rw [if_pos htp]
    rfl

/-- Witness for C5: the retry against a table whose task already has a
set flag updates only the bookkeeping fields. -/
theorem init_record_retry_frame_witness :
    getTask (initRecord "c5" (some "0xW") 2 7 5000 c5Store).1 "c5" =
      some { c5Task with
        attempt := jsOrNat 2 1
        totalAttempts := jsOrNat 7 3
        updatedAtMs := 5000
        ttl := (if c5Task.createdAtMs = 0 then 5000 else c5Task.createdAtMs) / 1000 +
          ttlSeconds5Years } :=
  (init_record_retry_frame "c5" (some "0xW") 2 7 5000 c5Store c5Task (by decide)).2

theorem flagStep_refl (s : Store) : FlagStep s s := by
  intro cid t h
  exact ⟨t, h, fun hr => hr, fun hb => hb⟩

theorem flagStep_trans {s1 s2 s3 : Store} (h12 : FlagStep s1 s2) (h23 : FlagStep s2 s3) :
    FlagStep s1 s3 := by
  intro cid t h
  rcases h12 cid t h with ⟨u, hu, hur, hub⟩
  rcases h23 cid u hu with ⟨v, hv, hvr, hvb⟩
  exact ⟨v, hv, fun hr => hvr (hur hr), fun hb => hvb (hub hb)⟩

theorem flagStep_condUpdate (cid0 : String) (cond : Task → Bool) (f : Task → Task)
    (hcid : ∀ x, (f x).correlationId = x.correlationId)
    (hres : ∀ x, x.correlationResolved = true → (f x).correlationResolved = true)
    (hbal : ∀ x, x.balanceReceived = true → (f x).balanceReceived = true) (s : Store) :
    FlagStep s (condUpdate cid0 cond f s).1 := by
  intro cid t h
  by_cases hany : s.any (fun x => x.correlationId == cid0 && cond x) = true
  · have hg : ∀ x : Task,
        ((fun x => if x.correlationId == cid0 && cond x then f x else x) x).correlationId =
          x.correlationId := by
      intro x
      by_cases hx : (x.correlationId == cid0 && cond x) = true
      · simp [hx, hcid]
      · simp [hx]
    rw [condUpdate, if_pos hany]
    refine ⟨_, by rw [getTask_map_pres hg s cid, h]; rfl, ?_, ?_⟩
    · intro hr
      show (if (t.correlationId == cid0 && cond t) = true then f t else t).correlationResolved
          = true
      by_cases hx : (t.correlationId == cid0 && cond t) = true
      · rw [if_pos hx]
        exact hres t hr
      · rw [if_neg hx]
        exact hr
    · intro hb
      show (if (t.correlationId == cid0 && cond t) = true then f t else t).balanceReceived
          = true
      by_cases hx : (t.correlationId == cid0 && cond t) = true
      · rw [if_pos hx]
        exact hbal t hb
      · rw [if_neg hx]
        exact hb
  · rw [condUpdate, if_neg hany]
    exact flagStep_refl s cid t h

theorem flagStep_initRecord (cid0 : String) (hx : Option String) (a tot now : Nat)
    (s : Store) : FlagStep s (initRecord cid0 hx a tot now s).1 := by
  rcases hf : s.find? (fun x => x.correlationId == cid0) with _ | ex
  · intro cid t h
    simp only [initRecord, hf]
    exact ⟨t, getTask_append_left h, fun hr => hr, fun hb => hb⟩
  · intro cid t h
    simp only [initRecord, hf]
    have hg : ∀ x : Task,
        ((fun x => if x.correlationId == cid0 then
            bookkeepSet ex (jsOrNat a 1) (jsOrNat tot 3) now x else x) x).correlationId =
          x.correlationId := by
      intro x
      by_cases hxc : x.correlationId == cid0
      · simp [hxc, bookkeepSet]
      · simp [hxc]
    refine ⟨_, by rw [getTask_map_pres hg s cid, h]; rfl, ?_, ?_⟩
    · intro hr
      show (if (t.correlationId == cid0) = true then
          bookkeepSet ex (jsOrNat a 1) (jsOrNat tot 3) now t else t).correlationResolved = true
      by_cases hxc : (t.correlationId == cid0) = true
      · rw [if_pos hxc]
        exact hr
      · rw [if_neg hxc]
        exact hr
    · intro hb
      show (if (t.correlationId == cid0) = true then
          bookkeepSet ex (jsOrNat a 1) (jsOrNat tot 3) now t else t).balanceReceived = true
      by_cases hxc : (t.correlationId == cid0) = true
      · rw [if_pos hxc]
        exact hb
      · rw [if_neg hxc]
        exact hb

theorem flagStep_eventCommit (hex tx : String) (ev now : Nat) (items : List Task)
    (s : Store) : FlagStep s (upsertEventCommit hex tx ev now items s).1 := by
  rcases items with _ | ⟨ex, rest⟩
  · exact flagStep_refl s
  · by_cases hres : ex.correlationResolved = true
    · simp only [upsertEventCommit, if_pos hres]
      exact flagStep_refl s
    · have hstep := flagStep_condUpdate ex.correlationId
        (fun t => t.correlationResolved == false) (eventSet hex tx ev now ex)
        (fun x => rfl) (fun x _ => rfl) (fun x hb => by rw [← hb]; rfl) s
      simp only [upsertEventCommit, if_neg hres]
      rcases hup : (condUpdate ex.correlationId (fun t => t.correlationResolved == false)
          (eventSet hex tx ev now ex) s).2 with _ | _
      · simp only [hup, Bool.false_eq_true, if_false]
        exact hstep
      · simp only [hup, if_true]
        exact hstep

theorem flagStep_balanceLoop (now : Nat) (cands : List Task) (s : Store) :
    FlagStep s (balanceLoop now cands s).1 := by
  induction cands with
  | nil => exact flagStep_refl s
  | cons c rest ih =>
      have hstep := flagStep_condUpdate c.correlationId
        (fun t => t.balanceReceived == false) (balanceSet now c)
        (fun x => rfl) (fun x hr => by rw [← hr]; rfl) (fun x _ => rfl) s
      rcases hup : (condUpdate c.correlationId (fun t => t.balanceReceived == false)
          (balanceSet now c) s).2 with _ | _
      · simp only [balanceLoop, hup, Bool.false_eq_true, if_false]
        exact ih
      · simp only [balanceLoop, hup, if_true]
        exact hstep

theorem flagStep_balanceCommit (now : Nat) (items : List Task) (s : Store) :
    FlagStep s (attachBalanceCommit now items s).1 := by
  by_cases he : (balanceCandidatesOf items).isEmpty = true
  · simp only [attachBalanceCommit, if_pos he]
    exact flagStep_refl s
  · simp only [attachBalanceCommit, if_neg he]
    exact flagStep_balanceLoop now (balanceCandidatesOf items) s

theorem flagStep_stepA (s : Store) (a : Action) : FlagStep s (stepA s a) := by
  cases a with
  | init cid0 hx aIn totIn now => exact flagStep_initRecord cid0 hx aIn totIn now s
  | applyEvent snap hex tx ev now => exact flagStep_eventCommit hex tx ev now snap s
  | applyBalance snap now => exact flagStep_balanceCommit now snap s

/-- C2: along any sequence of atomic store accesses of init-record runs,
event applications and balance attachments — each reconciler write
paired with an arbitrary earlier query snapshot, hence under every
interleaving — a task's record persists and a completion flag that was
`true` is still `true` afterwards; no operation resets it. -/
theorem flags_monotonic (acts : List Action) (s : Store) (cid : String) (t : Task)
    (h : getTask s cid = some t) :
    ∃ u, getTask (runA s acts) cid = some u ∧
      (t.correlationResolved = true → u.correlationResolved = true) ∧
      (t.balanceReceived = true → u.balanceReceived = true) := by
  induction acts generalizing s t with
  | nil => exact ⟨t, h, fun hr => hr, fun hb => hb⟩
  | cons a acts ih =>
      rcases flagStep_stepA s a cid t h with ⟨u, hu, hur, hub⟩
      rcases ih (stepA s a) u hu with ⟨v, hv, hvr, hvb⟩
      exact ⟨v, hv, fun hr => hvr (hur hr), fun hb => hvb (hub hb)⟩

/-- Witness for C2: after a balance attach runs against the table with a
stale snapshot, the already-set event flag of the stored task is still
set. -/
theorem flags_monotonic_witness :
    (getTask (runA c3Store [Action.applyBalance (balanceQuery 2000 c3Store) 2000])
        "c1").map Task.correlationResolved = some true := by
  obtain ⟨u, hu, himp, _⟩ := flags_monotonic
    [Action.applyBalance (balanceQuery 2000 c3Store) 2000] c3Store "c1" c3Task (by decide)
  rw [hu]
  simp [himp rfl]

theorem ite_pair_fst {α β : Type} (c : Prop) [Decidable c] (x : α) (o1 o2 : β) :
    (if c then (x, o1) else (x, o2)).1 = x := by
  split <;> rfl

theorem map_cid_of {g : Task → Task} (hg : ∀ x, (g x).correlationId = x.correlationId)
    (s : Store) : (s.map g).map Task.correlationId = s.map Task.correlationId := by
  induction s with
  | nil => rfl
  | cons x xs ih => simp [hg, ih]

theorem statusOk_initRecord (cid0 : String) (hx : Option String) (a tot now : Nat)
    {s : Store} (h : StatusOk s) : StatusOk (initRecord cid0 hx a tot now s).1 := by
  rcases hf : s.find? (fun x => x.correlationId == cid0) with _ | ex
  · simp only [initRecord, hf]
    constructor
    · rw [List.map_append]
      refine List.Nodup.append h.1 (List.nodup_singleton _) ?_
      intro c hc1 hc2
      rcases List.mem_map.mp hc1 with ⟨x, hxs, hxc⟩
      simp only [List.map_cons, List.map_nil, List.mem_singleton, initialTask] at hc2
      have hnp := List.find?_eq_none.mp hf x hxs
      apply hnp
      rw [beq_iff_eq, hxc, hc2]
    · intro t ht
      rcases List.mem_append.mp ht with hts | htn
      · exact h.2 t hts
      · simp only [List.mem_singleton] at htn
        rw [htn]
        rfl
  · simp only [initRecord, hf]
    have hg : ∀ x : Task,
        ((fun x => if x.correlationId == cid0 then
            bookkeepSet ex (jsOrNat a 1) (jsOrNat tot 3) now x else x) x).correlationId =
          x.correlationId := by
      intro x
      by_cases hxc : x.correlationId == cid0
      · simp [hxc, bookkeepSet]
      · simp [hxc]
    constructor
    · rw [map_cid_of hg]
      exact h.1
    · intro t ht
      rcases List.mem_map.mp ht with ⟨v, hv, hvt⟩
      rw [← hvt]
      show (if (v.correlationId == cid0) = true then
          bookkeepSet ex (jsOrNat a 1) (jsOrNat tot 3) now v else v).status = _
      by_cases hvc : (v.correlationId == cid0) = true
      · rw [if_pos hvc]
        exact h.2 v hv
      · rw [if_neg hvc]
        exact h.2 v hv

theorem statusOk_upsertEvent (hex tx : String) (ev now : Nat) {s : Store}
    (h : StatusOk s) : StatusOk (upsertEventRecord hex tx ev now s).1 := by
  rcases hq : eventQuery hex s with _ | ⟨ex, rest⟩
  · simp only [upsertEventRecord, upsertEventCommit, hq]
    exact h
  · have hexq : ex ∈ eventQuery hex s := by
      rw [hq]
      exact List.mem_cons_self ex rest
    obtain ⟨hexs, _, hexres⟩ := mem_of_mem_eventQuery hexq
    simp only [upsertEventRecord, upsertEventCommit, hq]
    rw [if_neg (by simp [hexres])]
    rw [ite_pair_fst]
    by_cases hany : s.any (fun x => x.correlationId == ex.correlationId &&
        x.correlationResolved == false) = true
    · rw [condUpdate, if_pos hany]
      have hg : ∀ x : Task,
          ((fun x => if x.correlationId == ex.correlationId && x.correlationResolved == false
              then eventSet hex tx ev now ex x else x) x).correlationId = x.correlationId := by
        intro x
        show (if (x.correlationId == ex.correlationId && x.correlationResolved == false) = true
            then eventSet hex tx ev now ex x else x).correlationId = x.correlationId
        by_cases hxg : (x.correlationId == ex.correlationId &&
            x.correlationResolved == false) = true
        · rw [if_pos hxg]
          rfl
        · rw [if_neg hxg]
      constructor
      · rw [map_cid_of hg]
        exact h.1
      · intro t ht
        rcases List.mem_map.mp ht with ⟨v, hv, hvt⟩
        rw [← hvt]
        show (if (v.correlationId == ex.correlationId && v.correlationResolved == false) = true
            then eventSet hex tx ev now ex v else v).status = _
        by_cases hvg : (v.correlationId == ex.correlationId &&
            v.correlationResolved == false) = true
        · rw [if_pos hvg]
          have hveq : v = ex := by
            have hvc : v.correlationId = ex.correlationId := by
              simp only [Bool.and_eq_true, beq_iff_eq] at hvg
              exact hvg.1
            exact task_eq_of_cid h.1 hv hexs hvc
          subst hveq
          cases hb : v.balanceReceived <;> simp [eventSet, statusOf, hb]
        · rw [if_neg hvg]
          exact h.2 v hv
    · rw [condUpdate, if_neg hany]
      exact h

theorem statusOk_balanceLoop (now : Nat) {cands : List Task} {s : Store}
    (h : StatusOk s) (hsub : ∀ c ∈ cands, c ∈ s) :
    StatusOk (balanceLoop now cands s).1 := by
  induction cands with
  | nil => exact h
  | cons c rest ih =>
      have hcs : c ∈ s := hsub c (List.mem_cons_self c rest)
      by_cases hany : s.any (fun x => x.correlationId == c.correlationId &&
          x.balanceReceived == false) = true
      · have hcu : condUpdate c.correlationId (fun t => t.balanceReceived == false)
            (balanceSet now c) s =
            (s.map (fun t => if t.correlationId == c.correlationId &&
                t.balanceReceived == false then balanceSet now c t else t), true) := by
          rw [condUpdate, if_pos hany]
        have hred : (balanceLoop now (c :: rest) s).1 =
            s.map (fun t => if t.correlationId == c.correlationId &&
                t.balanceReceived == false then balanceSet now c t else t) := by
          simp only [balanceLoop, hcu]
          simp
        rw [hred]
        have hg : ∀ x : Task,
            ((fun x => if x.correlationId == c.correlationId && x.balanceReceived == false
                then balanceSet now c x else x) x).correlationId = x.correlationId := by
          intro x
          show (if (x.correlationId == c.correlationId && x.balanceReceived == false) = true
              then balanceSet now c x else x).correlationId = x.correlationId
          by_cases hxg : (x.correlationId == c.correlationId &&
              x.balanceReceived == false) = true
          · rw [if_pos hxg]
            rfl
          · rw [if_neg hxg]
        constructor
        · rw [map_cid_of hg]
          exact h.1
        · intro t ht
          rcases List.mem_map.mp ht with ⟨v, hv, hvt⟩
          rw [← hvt]
          show (if (v.correlationId == c.correlationId && v.balanceReceived == false) = true
              then balanceSet now c v else v).status = _
          by_cases hvg : (v.correlationId == c.correlationId &&
              v.balanceReceived == false) = true
          · rw [if_pos hvg]
            have hveq : v = c := by
              have hvc : v.correlationId = c.correlationId := by
                simp only [Bool.and_eq_true, beq_iff_eq] at hvg
                exact hvg.1
              exact task_eq_of_cid h.1 hv hcs hvc
            subst hveq
            cases hb : v.correlationResolved <;> simp [balanceSet, statusOf, hb]
          · rw [if_neg hvg]
            exact h.2 v hv
      · have hcu : condUpdate c.correlationId (fun t => t.balanceReceived == false)
            (balanceSet now c) s = (s, false) := by
          rw [condUpdate, if_neg hany]
        have hred : balanceLoop now (c :: rest) s = balanceLoop now rest s := by
          simp only [balanceLoop, hcu]
          simp
        rw [hred]
        exact ih (fun x hxr => hsub x (List.mem_cons_of_mem c hxr))

theorem statusOk_attachBalance (now : Nat) {s : Store} (h : StatusOk s) :
    StatusOk (attachBalanceByTimeWindow now s).1 := by
  by_cases he : (balanceCandidatesOf (balanceQuery now s)).isEmpty = true
  · simp only [attachBalanceByTimeWindow, attachBalanceCommit, if_pos he]
    exact h
  · simp only [attachBalanceByTimeWindow, attachBalanceCommit, if_neg he]
    refine statusOk_balanceLoop now h ?_
    intro c hc
    simp only [balanceCandidatesOf, tier1Of, tier2Of] at hc
    rcases List.mem_append.mp hc with h1 | h2
    · exact mem_of_mem_balanceQuery (List.mem_filter.mp h1).1
    · exact mem_of_mem_balanceQuery (List.mem_filter.mp h2).1

theorem statusOk_stepS {s : Store} (h : StatusOk s) (op : SOp) : StatusOk (stepS s op) := by
  cases op with
  | init cid0 hx a tot now => exact statusOk_initRecord cid0 hx a tot now h
  | applyEvent hex tx ev now => exact statusOk_upsertEvent hex tx ev now h
  | applyBalance now => exact statusOk_attachBalance now h

theorem statusOk_runS {s : Store} (h : StatusOk s) (ops : List SOp) :
    StatusOk (runS s ops) := by
  induction ops generalizing s with
  | nil => exact h
  | cons op ops ih => exact ih (statusOk_stepS h op)

/-- C1 (amended): when the operations run atomically — each operation's
query and its conditional write against the same table state, i.e. any
sequential execution of init-record, event application and balance
attachment from an empty table — every stored Task's `status` equals the
pure function of the two flags.  (Under interleavings where a commit
uses an earlier query snapshot the stored status can lag the flags: see
the counterexample.) -/
theorem status_matches_flags_sequential (ops : List SOp) (t : Task)
    (ht : t ∈ runS [] ops) :
    t.status = statusOf t.correlationResolved t.balanceReceived :=
  (statusOk_runS ⟨by simp, by simp⟩ ops).2 t ht

/-- Witness for the amended C1: the task created by a single sequential
init run carries status PENDING, the pure function of (false, false). -/
theorem status_matches_flags_sequential_witness :
    c1WitnessTask.status =
      statusOf c1WitnessTask.correlationResolved c1WitnessTask.balanceReceived :=
  status_matches_flags_sequential [SOp.init "a" (some "0xh") 1 3 5] c1WitnessTask (by decide)

theorem firstLabelMatch_eq_none {ps : List (List LabelTok)} {cs : List Char}
    (h : ∀ p ∈ ps, scanLabel p cs = none) : firstLabelMatch ps cs = none := by
  induction ps with
  | nil => rfl
  | cons p ps ih =>
      simp only [firstLabelMatch]
      rw [h p (List.mem_cons_self p ps)]
      exact ih (fun q hq => h q (List.mem_cons_of_mem p hq))

/-- C7: the transaction-reference extraction tries the explorer URL
pattern first and then the labelled patterns in listed order, and never
falls back to a bare hex token: whenever neither the URL pattern nor any
labelled pattern matches, the extraction returns nothing even if the
text contains a bare `0x`+64-hex token, and such a message (when it is
not a balance mail) classifies as `other`, not as an event. -/
theorem classifier_no_bare_hex_fallback (text rawEmail : String)
    (hurl : firstUrlMatch text.data = none)
    (hlab : ∀ p ∈ labelPatterns, scanLabel p text.data = none)
    (hbal : isBalanceMail text rawEmail = false)
    (_hhex : hasBareHex64 text.data = true) :
    extractTxHashFromText text = none ∧ classifyEmail text rawEmail = EmailType.other := by
  have hext : extractTxHashFromText text = none := by
    simp only [extractTxHashFromText, hurl, Option.none_bind]
    rw [firstLabelMatch_eq_none hlab]
    rfl
  refine ⟨hext, ?_⟩
  simp [classifyEmail, hext, hbal]

/-- Witness for C7: a message that is exactly one bare 64-hex-digit
token is not extracted and classifies as `other`. -/
theorem classifier_no_bare_hex_fallback_witness :
    extractTxHashFromText c7Text = none ∧ classifyEmail c7Text "" = EmailType.other :=
  classifier_no_bare_hex_fallback c7Text "" (by decide) (by decide) (by decide) (by decide)

end E2EMM
